import Mathlib

/-!
Verification development for the Zillow agent scraper
(`src/scraper.ts`, `src/utils.ts`, `src/types.ts`).

Strings are modelled as `List Char`.  The fixed JavaScript regular
expressions used by the source are modelled by a small backtracking
matcher over single-character classes, which agrees with the
leftmost-match semantics of `RegExp.prototype.test` / `.match` for the
concrete patterns involved.
-/

namespace Zillow

/-! ## Basic string helpers over `List Char` -/

/-- `leadsWith needle hay`: `hay` starts with `needle`. -/
def leadsWith : List Char → List Char → Bool
  | [], _ => true
  | _ :: _, [] => false
  | a :: as, b :: bs => a == b && leadsWith as bs

/-- JS `String.prototype.includes`. -/
def containsStr (needle : List Char) : List Char → Bool
  | [] => leadsWith needle []
  | c :: cs => leadsWith needle (c :: cs) || containsStr needle cs

/-- Index of the first occurrence of `needle` (JS `String.prototype.indexOf`). -/
def idxOfStr (needle : List Char) : List Char → Option Nat
  | [] => if leadsWith needle [] then some 0 else none
  | c :: cs =>
    if leadsWith needle (c :: cs) then some 0
    else (idxOfStr needle cs).map (· + 1)

/-- JS `String.prototype.endsWith`. -/
def endsW (needle hay : List Char) : Bool :=
  leadsWith needle.reverse hay.reverse

/-- JS `String.prototype.toLowerCase` (ASCII is all the source needs). -/
def toLowerStr (s : List Char) : List Char := s.map Char.toLower

/-- The whitespace class of JS `\s` / `String.prototype.trim`
(restricted to the characters that can occur here). -/
def wsJs (c : Char) : Bool :=
  c == ' ' || c == '\t' || c == '\n' || c == '\r' || c == '\x0b' || c == '\x0c' || c == ' '

/-- JS `String.prototype.trim`. -/
def trimStr (s : List Char) : List Char :=
  ((s.dropWhile wsJs).reverse.dropWhile wsJs).reverse

/-- JS `text.replace(needle, repl)`: replaces the first occurrence only. -/
def replaceFirstStr (needle repl hay : List Char) : List Char :=
  match idxOfStr needle hay with
  | none => hay
  | some i => hay.take i ++ repl ++ hay.drop (i + needle.length)

/-- JS `text.replace(/,/g, '')`. -/
def removeCommas (s : List Char) : List Char := s.filter (fun c => !(c == ','))

/-! ## Decimal digits -/

/-- Value of a decimal digit string (JS `parseInt(s, 10)` on an all-digit string). -/
def digitsToNat (ds : List Char) : Nat :=
  ds.foldl (fun a c => a * 10 + (c.toNat - 48)) 0

/-- Little-endian decimal digits of `n`, with explicit fuel for structural recursion. -/
def digitsRevGo : Nat → Nat → List Nat
  | 0, _ => []
  | fuel + 1, n => if n = 0 then [] else (n % 10) :: digitsRevGo fuel (n / 10)

/-- Decimal rendering of a natural number. -/
def natToDecStr (n : Nat) : List Char :=
  if n = 0 then ['0']
  else ((digitsRevGo n n).reverse.map (fun d => Char.ofNat (48 + d)))

/-- First maximal run of decimal digits in a string (the match of `/\d+/`). -/
def firstDigitRun : List Char → Option (List Char)
  | [] => none
  | c :: cs =>
    if c.isDigit then some ((c :: cs).takeWhile Char.isDigit)
    else firstDigitRun cs

/-! ## A matcher for the source's fixed regular expressions

Each pattern is a sequence of atoms; an atom is a single-character class
with a quantifier.  `matchesExact` asks whether the whole string matches
(anchored at both ends, exists-semantics with backtracking, which agrees
with `RegExp.test` for the concrete patterns used by the scraper).
-/

inductive Atom where
  | one (f : Char → Bool)
  | opt (f : Char → Bool)
  | star (f : Char → Bool)
  | upto (n : Nat) (f : Char → Bool)

def matchesExactGo : Nat → List Atom → List Char → Bool
  | 0, _, _ => false
  | fuel + 1, p, s =>
    match p, s with
    | [], s => s.isEmpty
    | .one _ :: _, [] => false
    | .one f :: ps, c :: cs => f c && matchesExactGo fuel ps cs
    | .opt f :: ps, s =>
      matchesExactGo fuel ps s ||
        (match s with
         | c :: cs => f c && matchesExactGo fuel ps cs
         | [] => false)
    | .star f :: ps, s =>
      matchesExactGo fuel ps s ||
        (match s with
         | c :: cs => f c && matchesExactGo fuel (.star f :: ps) cs
         | [] => false)
    | .upto n f :: ps, s =>
      matchesExactGo fuel ps s ||
        (match n, s with
         | m + 1, c :: cs => f c && matchesExactGo fuel (.upto m f :: ps) cs
         | _, _ => false)

/-- Every recursive step of the matcher strictly decreases
`s.length + p.length`, so this fuel is always sufficient. -/
def matchesExact (p : List Atom) (s : List Char) : Bool :=
  matchesExactGo (s.length + p.length + 1) p s

/-- `RegExp.prototype.test`: some substring matches the pattern. -/
def containsMatch (p : List Atom) (s : List Char) : Bool :=
  matchesExact (.star (fun _ => true) :: p ++ [.star (fun _ => true)]) s

/-- Character classes used by the source's patterns. -/
def dC (c : Char) : Bool := c.isDigit

def notNl (c : Char) : Bool := !(c == '\n' || c == '\r')

/-- Literal characters, case-sensitive. -/
def lits (s : List Char) : List Atom := s.map (fun t => .one (fun c => c == t))

/-- Literal characters, case-insensitive (the `/i` flag). -/
def litsI (s : List Char) : List Atom :=
  s.map (fun t => .one (fun c => c.toLower == t.toLower))

/-- `\s+` -/
def wsPlus : List Atom := [.one wsJs, .star wsJs]

/-- `\s*` -/
def wsStar : List Atom := [.star wsJs]

/-! ## Data model (`src/types.ts`) -/

/-- `AgentListItem` of `types.ts`.  Ratings are modelled as exact rationals
(`parseFloat` of a `\d+\.\d+` match is exact for the short decimals here). -/
structure AgentListItem where
  agent_name : List Char
  profile_url : List Char
  rating_stars : ℚ
  review_count : Nat
  deriving DecidableEq

/-- `AgentDetails` of `types.ts`: all fields independently nullable. -/
structure AgentDetails where
  badge_type : Option (List Char)
  sales_last_12_months : Option Nat
  total_sales : Option Nat
  average_price : Option (List Char)
  price_range : Option (List Char)
  team_members_count : Option Nat
  deriving DecidableEq

/-- `AgentData` of `types.ts` (`AgentListItem` ⊕ `AgentDetails` ⊕ timing). -/
structure AgentData where
  agent_name : List Char
  profile_url : List Char
  rating_stars : ℚ
  review_count : Nat
  badge_type : Option (List Char)
  sales_last_12_months : Option Nat
  total_sales : Option Nat
  average_price : Option (List Char)
  price_range : Option (List Char)
  team_members_count : Option Nat
  scrape_time_seconds : Option ℚ
  deriving DecidableEq

/-! ## List-page extraction (`scrapeListPage`'s `page.evaluate` body,
`scraper.ts` lines 80–171) -/

/-- An `<a href*="/profile/">` element as the extraction script sees it:
its `href` attribute (absent ⇒ `getAttribute` returned `null`) and its
`textContent`. -/
structure Anchor where
  href : Option (List Char)
  text : List Char
  deriving DecidableEq

/-- A raw tuple produced by the in-page script (`{name, url, rating, reviews}`). -/
structure RawItem where
  name : List Char
  url : List Char
  rating : ℚ
  reviews : Nat
  deriving DecidableEq

/-- Leftmost match of `/\d+\.\d+/` anchored at the start of `s`:
`(length, value)`.  The first `\d+` is the maximal digit run (backtracking
it cannot help, since every shorter prefix is followed by a digit, not `.`). -/
def floatHere (s : List Char) : Option (Nat × ℚ) :=
  let d1 := s.takeWhile Char.isDigit
  if d1.isEmpty then none
  else
    match s.drop d1.length with
    | '.' :: r2 =>
      let d2 := r2.takeWhile Char.isDigit
      if d2.isEmpty then none
      else some (d1.length + 1 + d2.length,
                 mkRat (digitsToNat d1 * 10 ^ d2.length + digitsToNat d2) (10 ^ d2.length))
    | _ => none

/-- Leftmost match of `/\d+\.\d+/` in `s`: `(start, length, value)`
(JS `linkText.match(/(\d+\.\d+)/)` followed by `parseFloat`). -/
def findFirstFloatGo : Nat → List Char → Option (Nat × Nat × ℚ)
  | _, [] => none
  | i, c :: cs =>
    match floatHere (c :: cs) with
    | some (len, v) => some (i, len, v)
    | none => findFirstFloatGo (i + 1) cs

def findFirstFloat (s : List Char) : Option (Nat × Nat × ℚ) := findFirstFloatGo 0 s

/-- Leftmost match of `/\((\d+)\)/` anchored at the start: `(length, value)`. -/
def parenHere : List Char → Option (Nat × Nat)
  | '(' :: r =>
    let ds := r.takeWhile Char.isDigit
    if ds.isEmpty then none
    else
      match r.drop ds.length with
      | ')' :: _ => some (ds.length + 2, digitsToNat ds)
      | _ => none
  | _ => none

/-- Leftmost match of `/\((\d+)\)/` in `s`: `(start, length, value)`
(JS `linkText.match(/\((\d+)\)/)` followed by `parseInt`). -/
def findFirstParenGo : Nat → List Char → Option (Nat × Nat × Nat)
  | _, [] => none
  | i, c :: cs =>
    match parenHere (c :: cs) with
    | some (len, v) => some (i, len, v)
    | none => findFirstParenGo (i + 1) cs

def findFirstParen (s : List Char) : Option (Nat × Nat × Nat) := findFirstParenGo 0 s

/-- Remove `len` characters starting at index `i`. -/
def removeAt (s : List Char) (i len : Nat) : List Char :=
  s.take i ++ s.drop (i + len)

/-- JS `cleanText.replace(/\d+\.\d+/, '')`. -/
def removeFirstFloat (s : List Char) : List Char :=
  match findFirstFloat s with
  | none => s
  | some (i, len, _) => removeAt s i len

/-- JS `cleanText.replace(/\(\d+\)/, '')`. -/
def removeFirstParen (s : List Char) : List Char :=
  match findFirstParen s with
  | none => s
  | some (i, len, _) => removeAt s i len

/-- The separator class of `split(/[•\-$]/)`. -/
def isSep (c : Char) : Bool := c == '•' || c == '-' || c == '$'

/-- `parts[0]` of `cleanText.split(/[•\-$]/)`. -/
def firstSegment (s : List Char) : List Char := s.takeWhile (fun c => !(isSep c))

/-- `s.split('\n')[0]`. -/
def firstLine (s : List Char) : List Char := s.takeWhile (fun c => !(c == '\n'))

/-- The agent-name cleanup pipeline (`scraper.ts` lines 129–151). -/
def extractName (t : List Char) : List Char :=
  let clean0 := if leadsWith "TEAM".toList t then t.drop 4 else t
  let clean1 := removeFirstFloat clean0
  let clean2 := removeFirstParen clean1
  let name0 := trimStr (firstSegment clean2)
  let name1 := if name0.isEmpty || name0.length < 3 then (trimStr clean2).take 100 else name0
  trimStr (firstLine name1)

/-- `href.startsWith('http') ? href : 'https://www.zillow.com' + href`. -/
def fullUrlOf (href : List Char) : List Char :=
  if leadsWith "http".toList href then href else "https://www.zillow.com".toList ++ href

/-- Processing of a single anchor (`scraper.ts` lines 96–164):
`some raw` iff the entry passes the rating/review/name gates. -/
def anchorItem (a : Anchor) : Option RawItem :=
  match a.href with
  | none => none
  | some h =>
    if h.isEmpty then none
    else
      let u := fullUrlOf h
      match findFirstFloat a.text, findFirstParen a.text with
      | some (_, _, r), some (_, _, n) =>
        if r ≠ 0 ∧ n ≠ 0 ∧ 1 ≤ r ∧ r ≤ 5 then
          let nm := extractName a.text
          if 3 ≤ nm.length then some ⟨nm, u, r, n⟩ else none
        else none
      | _, _ => none

/-- The in-page accumulation loop, with the `results.length >= limit`
break and the within-page URL de-dup. -/
def extractPageGo (limit : Nat) : List Anchor → List RawItem → List RawItem
  | [], acc => acc
  | a :: rest, acc =>
    if limit ≤ acc.length then acc
    else
      match anchorItem a with
      | none => extractPageGo limit rest acc
      | some it =>
        if acc.any (fun r => decide (r.url = it.url)) then extractPageGo limit rest acc
        else extractPageGo limit rest (acc ++ [it])

/-- `page.evaluate((limit) => {...}, this.agentLimit)`: the raw tuples of
the currently loaded page. -/
def extractPage (links : List Anchor) (limit : Nat) : List RawItem :=
  extractPageGo limit links []

/-! ## Pagination loop (`scrapeListPage`, `scraper.ts` lines 38–223) -/

/-- What one iteration of the pagination loop observes for a given page
number: the `page.goto`/`page.evaluate` chain threw (`navError`, caught by
the outer `catch`), the `waitForSelector('a[href*="/profile/"]')` timed
out (`noAnchor`, the inner `catch` → `break`), or the page loaded and
exposed its profile anchors (`ok`). -/
inductive PageOutcome where
  | navError
  | noAnchor
  | ok (links : List Anchor)

/-- `agents.push({...})` field mapping (`scraper.ts` lines 179–184). -/
def mkItem (raw : RawItem) : AgentListItem :=
  ⟨raw.name, raw.url, raw.rating, raw.reviews⟩

/-- One step of the outer accumulation loop (`scraper.ts` lines 174–189):
skip an already-seen URL, stop pushing at the agent limit, else append. -/
def pushNew (limit : Nat) (acc : List AgentListItem) (raw : RawItem) : List AgentListItem :=
  if acc.any (fun a => decide (a.profile_url = raw.url)) then acc
  else if limit ≤ acc.length then acc
  else acc ++ [mkItem raw]

/-- The `while (agents.length < this.agentLimit)` loop.  `src` maps a page
number to its observed outcome; the result is the accumulated list
together with the list of page numbers navigated to.  `fuel` bounds the
iteration count (the source has no such bound; every claim proved below
is independent of the fuel value). -/
def crawlLoop (src : Nat → PageOutcome) (limit : Nat) :
    Nat → Nat → List AgentListItem → List AgentListItem × List Nat
  | 0, _, acc => (acc, [])
  | fuel + 1, page, acc =>
    if limit ≤ acc.length then (acc, [])
    else
      match src page with
      | .navError => (acc, [page])
      | .noAnchor => (acc, [page])
      | .ok links =>
        let ext := extractPage links limit
        let acc2 := ext.foldl (pushNew limit) acc
        if ext.isEmpty then (acc2, [page])
        else if limit ≤ acc2.length then (acc2, [page])
        else
          let r := crawlLoop src limit fuel (page + 1) acc2
          (r.fst, page :: r.snd)

/-- `scrapeListPage` (given an initialized browser): run the loop from
page 1 with an empty accumulator and return `agents.slice(0, this.agentLimit)`. -/
def scrapeList (src : Nat → PageOutcome) (limit fuel : Nat) : List AgentListItem :=
  (crawlLoop src limit fuel 1 []).fst.take limit

/-- The page numbers the crawl navigated to. -/
def pagesVisited (src : Nat → PageOutcome) (limit fuel : Nat) : List Nat :=
  (crawlLoop src limit fuel 1 []).snd

/-! ## Challenge clearance -/

/-- Modelled from the spec: `awaitClearance(pageContext, maxWait)` (§4.3)
is absent from `src/`; the nearest code is the bounded
`waitForSelector('a[href*="/profile/"]', { timeout: 15000 })` of
`scrapeListPage`.  `ch k` reports whether the page is still challenged
(anchor not attached) at polling cycle `k`; the poll runs for at most
`maxWait` cycles and returns `true` as soon as a cycle finds the page
clear. -/
def awaitClearanceGo (ch : Nat → Bool) : Nat → Nat → Bool
  | _, 0 => false
  | i, w + 1 => if ch i then awaitClearanceGo ch (i + 1) w else true

/-- Modelled from the spec: the challenge-clearance primitive (§4.3). -/
def awaitClearance (ch : Nat → Bool) (maxWait : Nat) : Bool :=
  awaitClearanceGo ch 0 maxWait

/-- A page source whose pages are gated by challenge clearance: a page
whose challenge never clears within `maxWait` presents no extraction
anchor (`noAnchor`); a cleared page exposes its anchors. -/
def srcOfChallenges (ch : Nat → Nat → Bool) (anchors : Nat → List Anchor)
    (maxWait : Nat) : Nat → PageOutcome :=
  fun p => if awaitClearance (ch p) maxWait then .ok (anchors p) else .noAnchor

/-! ## Detail-page extraction (`scrapeDetailPage`'s `page.evaluate` body,
`scraper.ts` lines 251–456)

The loaded page is modelled by the element views the script queries:
every query result is a list of elements in document order, each carrying
exactly the attributes the script reads.
-/

/-- An element of `querySelectorAll('div, span, p, dt, dd, strong, b')`:
its `textContent` and, when present, its `previousElementSibling`'s
`textContent`. -/
structure ElemL where
  text : List Char
  prevSiblingText : Option (List Char)
  deriving DecidableEq

/-- A heading (`h1, h2, h3`) with the `textContent`s of its chain of
`nextElementSibling`s. -/
structure Heading where
  text : List Char
  nextSiblings : List (List Char)
  deriving DecidableEq

/-- A `div`, with its `textContent` and whether `querySelector('img')`
finds an image inside it. -/
structure DivElem where
  text : List Char
  hasImage : Bool
  deriving DecidableEq

/-- A loaded detail page, as seen through the queries the script makes. -/
structure DetailPage where
  bodyText : List Char
  badgeElemTexts : List (List Char)
  headings : List Heading
  labelElems : List ElemL
  memberElemTexts : List (List Char)
  divs : List DivElem
  deriving DecidableEq

/-- The `result` record of the detail `page.evaluate`. -/
structure RawDetail where
  badge : Option (List Char)
  salesLast12Months : Option Nat
  totalSales : Option Nat
  averagePrice : Option (List Char)
  priceRange : Option (List Char)
  teamMembers : Option Nat
  deriving DecidableEq

/-- `/premier\s+agent/i` -/
def premierPat : List Atom := litsI "premier".toList ++ wsPlus ++ litsI "agent".toList

/-- `/top\s+agent/i` -/
def topAgentPat : List Atom := litsI "top".toList ++ wsPlus ++ litsI "agent".toList

/-- `/zillow\s+pro/i` -/
def zillowProPat : List Atom := litsI "zillow".toList ++ wsPlus ++ litsI "pro".toList

/-- Badge strategy 1 (`scraper.ts` lines 267–283): scan
`[class*="badge"], [class*="agent-type"], [class*="designation"]`
elements; order premier → top → zillow. -/
def badgeS1 : List (List Char) → Option (List Char)
  | [] => none
  | t :: rest =>
    let tt := trimStr t
    if containsMatch premierPat tt then some "Premier Agent".toList
    else if containsMatch topAgentPat tt then some "Top Agent".toList
    else if containsMatch zillowProPat tt then some "Zillow Pro".toList
    else badgeS1 rest

/-- Badge strategy 2 (lines 286–300): the first 2000 characters of the
body text; order zillow → top → premier. -/
def badgeS2 (headerArea : List Char) : Option (List Char) :=
  if containsMatch zillowProPat headerArea then some "Zillow Pro".toList
  else if containsMatch topAgentPat headerArea then some "Top Agent".toList
  else if containsMatch premierPat headerArea then some "Premier Agent".toList
  else none

/-- The inner sibling scan of badge strategy 3: up to three next
siblings, order zillow → top → premier. -/
def badgeS3sib : List (List Char) → Option (List Char)
  | [] => none
  | s :: rest =>
    if containsMatch zillowProPat s then some "Zillow Pro".toList
    else if containsMatch topAgentPat s then some "Top Agent".toList
    else if containsMatch premierPat s then some "Premier Agent".toList
    else badgeS3sib rest

/-- Badge strategy 3 (lines 303–331): headings of plausible length, then
their first three next siblings. -/
def badgeS3 : List Heading → Option (List Char)
  | [] => none
  | h :: rest =>
    if 5 < h.text.length ∧ h.text.length < 100 then
      match badgeS3sib (h.nextSiblings.take 3) with
      | some b => some b
      | none => badgeS3 rest
    else badgeS3 rest

/-- The candidate validation filter of `findValueForLabel`
(lines 367–379). -/
def validCand (c : List Char) : Bool :=
  let lc := toLowerStr c
  !c.isEmpty && c.length < 30 &&
    !containsStr "price range".toList lc &&
    !containsStr "average price".toList lc &&
    !containsStr "total sales".toList lc &&
    !containsStr "sales last".toList lc &&
    !containsStr "sales numbers represent".toList lc &&
    !containsStr "team".toList lc &&
    !containsStr [Char.ofNat 123] c &&
    !containsStr "function".toList c

/-- `findValueForLabel` (lines 334–386).  The empty list plays the role
of both JS `null` and `''` for the candidate (they behave identically:
both are falsy and both fail the validation filter). -/
def findValueForLabel (elems : List ElemL) (label : List Char) : Option (List Char) :=
  match elems with
  | [] => none
  | el :: rest =>
    let t := trimStr el.text
    if !t.isEmpty && containsStr label t then
      if 200 < t.length then findValueForLabel rest label
      else
        let c0 : List Char := if endsW label t then trimStr (replaceFirstStr label [] t) else []
        let c1 : List Char :=
          if c0.isEmpty ∧ t = label then
            match el.prevSiblingText with
            | some pt => trimStr pt
            | none => []
          else c0
        if validCand c1 then some c1 else findValueForLabel rest label
    else findValueForLabel rest label

/-- `str.replace(/,/g,'').match(/(\d+)/)` followed by `parseInt`. -/
def parseLeadingNat (s : List Char) : Option Nat :=
  (firstDigitRun (removeCommas s)).map digitsToNat

/-- `/^\d+\s+members?$/i` -/
def membersPat : List Atom :=
  [.one dC, .star dC] ++ wsPlus ++ litsI "member".toList ++
    [.opt (fun c => c.toLower == 's')]

/-- `/Meet [Tt]he.{0,50}(Team|Group)/` (distributing the alternation,
which preserves `.test` semantics). -/
def meetPat (w : List Char) : List Atom :=
  lits "Meet ".toList ++ [.one (fun c => c == 'T' || c == 't')] ++ lits "he".toList ++
    [.upto 50 notNl] ++ lits w

def hasMeetTeam (s : List Char) : Bool :=
  containsMatch (meetPat "Team".toList) s || containsMatch (meetPat "Group".toList) s

/-- `/\d\.\d\s*★/` -/
def ratingStarPat : List Atom :=
  [.one dC, .one (fun c => c == '.'), .one dC] ++ wsStar ++ [.one (fun c => c == '★')]

/-- `/\d\.\d\s*\(\d+\)/` -/
def ratingParenPat : List Atom :=
  [.one dC, .one (fun c => c == '.'), .one dC] ++ wsStar ++
    [.one (fun c => c == '('), .one dC, .star dC, .one (fun c => c == ')')]

/-- `/\d+\s*sales?\s+last\s+12\s+months/i` -/
def salesCardPat : List Atom :=
  [.one dC, .star dC] ++ wsStar ++ litsI "sale".toList ++
    [.opt (fun c => c.toLower == 's')] ++ wsPlus ++ litsI "last".toList ++ wsPlus ++
    lits "12".toList ++ wsPlus ++ litsI "months".toList

def dDot (c : Char) : Bool := c.isDigit || c == '.'

def kmC (c : Char) : Bool := c.toLower == 'k' || c.toLower == 'm'

/-- `/\$[\d.]+[KM]?\s*-\s*\$[\d.]+[KM]?\s*price\s+range/i` -/
def priceRangeCardPat : List Atom :=
  [.one (fun c => c == '$'), .one dDot, .star dDot, .opt kmC] ++ wsStar ++
    [.one (fun c => c == '-')] ++ wsStar ++
    [.one (fun c => c == '$'), .one dDot, .star dDot, .opt kmC] ++ wsStar ++
    litsI "price".toList ++ wsPlus ++ litsI "range".toList

/-- The team-member profile-card filter (lines 432–446). -/
def isCard (d : DivElem) : Bool :=
  let n := d.text.length
  if n < 80 || 600 < n then false
  else
    (containsMatch ratingStarPat d.text || containsMatch ratingParenPat d.text) &&
      containsMatch salesCardPat d.text &&
      containsMatch priceRangeCardPat d.text &&
      d.hasImage

/-- The full detail `page.evaluate` body (lines 251–456). -/
def extractDetail (page : DetailPage) : RawDetail :=
  let badge :=
    match badgeS1 page.badgeElemTexts with
    | some b => some b
    | none =>
      match badgeS2 (page.bodyText.take 2000) with
      | some b => some b
      | none => badgeS3 page.headings
  let sales12 := (findValueForLabel page.labelElems "Sales last 12 months".toList).bind
    parseLeadingNat
  let totalSales := (findValueForLabel page.labelElems "Total sales".toList).bind
    parseLeadingNat
  let avgPrice := findValueForLabel page.labelElems "Average price".toList
  let priceRange :=
    (findValueForLabel page.labelElems "Price range".toList).or
      (findValueForLabel page.labelElems "Price Range".toList)
  let teamStr :=
    match findValueForLabel page.labelElems "Team members".toList with
    | some s => some s
    | none => (page.memberElemTexts.map trimStr).find? (fun txt => matchesExact membersPat txt)
  let teamMembers :=
    match teamStr with
    | some s => parseLeadingNat s
    | none =>
      if hasMeetTeam page.bodyText then
        let c := (page.divs.filter isCard).length
        if 2 ≤ c ∧ c ≤ 20 then some c else none
      else none
  ⟨badge, sales12, totalSales, avgPrice, priceRange, teamMembers⟩

/-! ## `scrapeDetailPage` (`scraper.ts` lines 228–473) -/

/-- The `details` object as initialized (lines 236–243): all six fields null. -/
def allNullDetails : AgentDetails := ⟨none, none, none, none, none, none⟩

/-- What a given agent URL's fetch/evaluate does this run: throws, or
yields the evaluate result. -/
abbrev DetailBehavior := Except Unit RawDetail

/-- The `try`/`catch`/`return details` of `scrapeDetailPage`: a throw
during navigation or evaluation leaves `details` all-null; success copies
the six extracted fields. -/
def scrapeDetailPageOk (beh : DetailBehavior) : AgentDetails :=
  match beh with
  | .error _ => allNullDetails
  | .ok r => ⟨r.badge, r.salesLast12Months, r.totalSales, r.averagePrice, r.priceRange,
      r.teamMembers⟩

/-- `scrapeDetailPage` including its `if (!this.browser) throw` guard. -/
def scrapeDetailPage (browserInit : Bool) (beh : DetailBehavior) :
    Except (List Char) AgentDetails :=
  if browserInit then .ok (scrapeDetailPageOk beh)
  else .error "Browser not initialized".toList

/-! ## Bounded worker pool (the detail phase of `run`,
`scraper.ts` lines 497–540)

The batch split is `listItems.slice(i, i + CONCURRENCY_LIMIT)`; within a
batch the per-item operations settle in an arbitrary wall-clock order,
each fulfilling its own promise; `Promise.all` then reassembles the batch
by input index.  Completion timing is modelled by an arbitrary completion
schedule: each batch `b` settles its promises in the order `orders b`
(a permutation of the batch's indices).
-/

/-- `listItems.slice(i, i + c)` batching. -/
def chunks : Nat → List α → List (List α)
  | _, [] => []
  | 0, x :: xs => [x :: xs]
  | c + 1, x :: xs => (x :: xs).take (c + 1) :: chunks (c + 1) ((x :: xs).drop (c + 1))
  termination_by _ l => l.length

/-- `{...agent, ...details, scrape_time_seconds}` (lines 518–522).
`detailOf` is the awaited detail record for the item; `timeOf` its
measured elapsed time. -/
def mkData (detailOf : AgentListItem → AgentDetails) (timeOf : AgentListItem → ℚ)
    (a : AgentListItem) : AgentData :=
  let d := detailOf a
  ⟨a.agent_name, a.profile_url, a.rating_stars, a.review_count,
   d.badge_type, d.sales_last_12_months, d.total_sales, d.average_price, d.price_range,
   d.team_members_count, some (timeOf a)⟩

/-- One completion event: the operation for batch index `i` settles,
fulfilling its promise (filling slot `i` with its item's record). -/
def fillStep (batch : List α) (f : α → β) (slots : List (Option β)) (i : Nat) :
    List (Option β) :=
  match batch.get? i with
  | some a => slots.set i (some (f a))
  | none => slots

/-- The settled promises of one batch: slot `i` of the batch receives its
item's record when the item completes.  `order` is the wall-clock
completion order of the batch's indices. -/
def fillSlots (batch : List α) (f : α → β) (order : List Nat) : List (Option β) :=
  order.foldl (fillStep batch f) (List.replicate batch.length none)

/-- `Promise.all`: resolves with the values in slot order once every slot
has settled. -/
def promiseAll : List (Option β) → Option (List β)
  | [] => some []
  | none :: _ => none
  | some b :: rest => (promiseAll rest).map (b :: ·)

/-- `const batchResults = await Promise.all(batchPromises)` for one batch. -/
def batchResults (batch : List α) (f : α → β) (order : List Nat) : List β :=
  match promiseAll (fillSlots batch f order) with
  | some l => l
  | none => []

/-- `for (const batch of batches) { ...; results.push(...batchResults) }`. -/
def runBatchesGo (f : α → β) (orders : Nat → List Nat) : List (List α) → Nat → List β
  | [], _ => []
  | b :: bs, k => batchResults b f (orders k) ++ runBatchesGo f orders bs (k + 1)

/-- The detail phase of `run`: batch the list items with the configured
concurrency, run each batch under its completion schedule, concatenate. -/
def runDetail (c : Nat) (items : List AgentListItem)
    (detailOf : AgentListItem → AgentDetails) (timeOf : AgentListItem → ℚ)
    (orders : Nat → List Nat) : List AgentData :=
  runBatchesGo (mkData detailOf timeOf) orders (chunks c items) 0

/-- `CONCURRENCY_LIMIT` (line 497). -/
def concurrencyLimit : Nat := 5

/-- `agentLimit` (line 8). -/
def agentLimit : Nat := 100

/-! ## Money formatting (`§4.2` Tier 1) and `parseNumber` (`utils.ts`) -/

/-- Modelled from the spec: the Tier-1 money formatter (§4.2) is not in
`src/` (only its output format is documented): values ≥ 1,000,000 as
`"$<value/1e6 to 1 decimal>M"`, values ≥ 1,000 as
`"$<value/1e3 rounded>K"`, else `"$<value>"` (rounding half-up, as JS
`Math.round` / `toFixed` do for the values involved). -/
def formatMoney (v : Nat) : List Char :=
  if 1000000 ≤ v then
    let tenths := (v + 50000) / 100000
    '$' :: (natToDecStr (tenths / 10) ++ '.' :: natToDecStr (tenths % 10) ++ ['M'])
  else if 1000 ≤ v then '$' :: (natToDecStr ((v + 500) / 1000) ++ ['K'])
  else '$' :: natToDecStr v

/-- `parseNumber` of `utils.ts`: null/empty ⇒ null, else strip commas,
take the first digit run, `parseInt`. -/
def parseNumber (text : List Char) : Option Nat :=
  if text.isEmpty then none
  else (firstDigitRun (removeCommas text)).map digitsToNat

/-! ## Crawl invariant -/

/-- The accumulation-loop invariant of claim C1: never more items than
the configured limit, and profile URLs pairwise distinct. -/
def crawlInv (limit : Nat) (acc : List AgentListItem) : Prop :=
  acc.length ≤ limit ∧ (acc.map (fun a => a.profile_url)).Nodup

/-- Per-item guarantees of the list extraction (claim C10). -/
def itemGood (it : AgentListItem) : Prop :=
  3 ≤ it.agent_name.length ∧ 1 ≤ it.rating_stars ∧ it.rating_stars ≤ 5 ∧
    0 < it.review_count

/-! ## Concrete inputs for witnesses and counterexamples -/

/-- A profile anchor as the list page exposes it. -/
def aW : Anchor := ⟨some "/profile/u1/".toList, "4.5 (23)John Smith".toList⟩

/-- A second, distinct profile anchor. -/
def aW2 : Anchor := ⟨some "/profile/u2/".toList, "5.0 (142)Jane Doe•Brokerage".toList⟩

/-- A page source that serves the same single-agent page forever
(a site that repeats its last page instead of signalling exhaustion). -/
def srcRepeat : Nat → PageOutcome := fun _ => .ok [aW]

/-- A page source whose very first page throws during processing. -/
def srcErr1 : Nat → PageOutcome := fun _ => .navError

/-- A page source whose page 3 carries no profile anchors (zero raw
tuples); earlier pages serve `aW`. -/
def srcEmpty3 : Nat → PageOutcome := fun p => if p < 3 then .ok [aW] else .ok []

/-- A challenge trace that clears at polling cycle 2. -/
def chTwo : Nat → Bool := fun k => decide (k < 2)

/-- A challenge trace that never clears. -/
def chNever : Nat → Bool := fun _ => true

/-- A challenged source: every page's challenge never clears, though each
page would expose `aW` if extraction were attempted. -/
def srcBlocked : Nat → PageOutcome :=
  srcOfChallenges (fun _ => chNever) (fun _ => [aW]) 15

/-- The raw tuple the in-page script extracts from `aW`. -/
def rawW : RawItem :=
  ⟨"John Smith".toList, "https://www.zillow.com/profile/u1/".toList, mkRat 45 10, 23⟩

/-- Concrete list items for the worker-pool witnesses. -/
def itW : AgentListItem := ⟨"abc".toList, "u".toList, 5, 2⟩

def itW2 : AgentListItem := ⟨"def".toList, "v".toList, 4, 3⟩

def itW3 : AgentListItem := ⟨"ghi".toList, "w".toList, 3, 4⟩

/-- A completion schedule: batch 0 settles its second item before its
first; later batches settle in order. -/
def ordersW : Nat → List Nat := fun k => if k = 0 then [1, 0] else [0]

/-- A detail behaviour that throws exactly for `itW`'s URL. -/
def behW : AgentListItem → DetailBehavior := fun it =>
  if it.profile_url = "u".toList then .error ()
  else .ok ⟨some "Top Agent".toList, some 7, some 30, none, none, none⟩

/-- A qualifying team-member card text (length 103, within [80,600];
rating, sales and price-range phrases; see `isCard`). -/
def cardText : List Char :=
  "Jane Doe Example Realtor 4.8 (12) 10 sales last 12 months $500K - $1M price range more filler text here".toList

/-- Four qualifying member cards. -/
def fourCards : List DivElem :=
  [⟨cardText, true⟩, ⟨cardText ++ ['a'], true⟩, ⟨cardText ++ ['b'], true⟩,
   ⟨cardText ++ ['c'], true⟩]

/-- A detail page with no structured team field, a "Meet The Team"
section and four qualifying member cards. -/
def pageMeet : DetailPage :=
  ⟨"welcome Meet The Team section".toList, [], [], [], [], fourCards⟩

/-- The same page without the "Meet The Team" marker. -/
def pageNoMeet : DetailPage :=
  ⟨"welcome section".toList, [], [], [], [], fourCards⟩

/-! # Lemmas about the pagination loop -/

theorem pushNew_crawlInv {limit : Nat} {acc : List AgentListItem} (raw : RawItem)
    (h : crawlInv limit acc) : crawlInv limit (pushNew limit acc raw) := by
  obtain ⟨hlen, hnd⟩ := h
  unfold pushNew
  split
  · exact ⟨hlen, hnd⟩
  · rename_i hdup
    split
    · exact ⟨hlen, hnd⟩
    · rename_i hlim
      refine ⟨by simp; omega, ?_⟩
      simp only [List.map_append, List.map_cons, List.map_nil]
      rw [List.nodup_append]
      refine ⟨hnd, List.nodup_singleton _, ?_⟩
      intro x hx hy
      simp only [List.mem_singleton] at hy
      subst hy
      simp only [List.mem_map] at hx
      obtain ⟨a, ha, hau⟩ := hx
      simp only [List.any_eq_true, decide_eq_true_eq, not_exists, not_and] at hdup
      exact hdup a ha (by simpa [mkItem] using hau)

theorem foldl_pushNew_crawlInv {limit : Nat} (raws : List RawItem) :
    ∀ {acc : List AgentListItem}, crawlInv limit acc →
      crawlInv limit (raws.foldl (pushNew limit) acc) := by
  induction raws with
  | nil => intro acc h; exact h
  | cons r rs ih => intro acc h; exact ih (pushNew_crawlInv r h)

theorem crawlLoop_crawlInv (src : Nat → PageOutcome) (limit : Nat) :
    ∀ (fuel page : Nat) {acc : List AgentListItem}, crawlInv limit acc →
      crawlInv limit (crawlLoop src limit fuel page acc).fst := by
  intro fuel
  induction fuel with
  | zero => intro page acc h; exact h
  | succ n ih =>
    intro page acc h
    rw [crawlLoop]
    split
    · exact h
    · match hsrc : src page with
      | .navError => simp only []; exact h
      | .noAnchor => simp only []; exact h
      | .ok links =>
        simp only []
        split
        · exact foldl_pushNew_crawlInv _ h
        · split
          · exact foldl_pushNew_crawlInv _ h
          · exact ih (page + 1) (foldl_pushNew_crawlInv _ h)

theorem crawlLoop_navError (src : Nat → PageOutcome) (limit fuel page : Nat)
    (acc : List AgentListItem) (h : src page = .navError) :
    crawlLoop src limit (fuel + 1) page acc =
      if limit ≤ acc.length then (acc, []) else (acc, [page]) := by
  rw [crawlLoop, h]

theorem crawlLoop_noAnchor (src : Nat → PageOutcome) (limit fuel page : Nat)
    (acc : List AgentListItem) (h : src page = .noAnchor) :
    crawlLoop src limit (fuel + 1) page acc =
      if limit ≤ acc.length then (acc, []) else (acc, [page]) := by
  rw [crawlLoop, h]

theorem crawlLoop_zeroRaw (src : Nat → PageOutcome) (limit fuel page : Nat)
    (acc : List AgentListItem) (links : List Anchor) (h : src page = .ok links)
    (hext : extractPage links limit = []) :
    crawlLoop src limit (fuel + 1) page acc =
      if limit ≤ acc.length then (acc, []) else (acc, [page]) := by
  rw [crawlLoop, h]
  simp only [hext, List.foldl_nil, List.isEmpty_nil, if_true]

/-- If page `N` yields zero raw tuples, no page beyond `N` is navigated to. -/
theorem crawlLoop_pages_bounded (src : Nat → PageOutcome) (limit N : Nat)
    (links : List Anchor) (hsrc : src N = .ok links)
    (hext : extractPage links limit = []) :
    ∀ (fuel page : Nat) (acc : List AgentListItem), page ≤ N →
      ∀ p ∈ (crawlLoop src limit fuel page acc).snd, p ≤ N := by
  intro fuel
  induction fuel with
  | zero => intro page acc _ p hmem; simp [crawlLoop] at hmem
  | succ n ih =>
    intro page acc hpage p hmem
    rw [crawlLoop] at hmem
    split at hmem
    · simp at hmem
    · cases hsp : src page with
      | navError =>
        rw [hsp] at hmem; simp at hmem; omega
      | noAnchor =>
        rw [hsp] at hmem; simp at hmem; omega
      | ok links2 =>
        rw [hsp] at hmem
        simp only [] at hmem
        split at hmem
        · simp at hmem; omega
        · split at hmem
          · simp at hmem; omega
          · rename_i hne _
            simp only [List.mem_cons] at hmem
            rcases hmem with rfl | hmem
            · exact hpage
            · refine ih (page + 1) _ ?_ p hmem
              rcases Nat.lt_or_ge page N with hlt | hge
              · omega
              · exfalso
                have : page = N := by omega
                subst this
                rw [hsrc] at hsp
                cases hsp
                rw [hext] at hne
                simp at hne

/-! # Lemmas about challenge clearance -/

theorem awaitClearanceGo_eq_true (ch : Nat → Bool) :
    ∀ (w i : Nat), awaitClearanceGo ch i w = true ↔ ∃ k < w, ch (i + k) = false := by
  intro w
  induction w with
  | zero => intro i; simp [awaitClearanceGo]
  | succ n ih =>
    intro i
    rw [awaitClearanceGo]
    by_cases h : ch i = true
    · rw [if_pos h, ih]
      constructor
      · rintro ⟨k, hk, hc⟩
        exact ⟨k + 1, by omega, by rw [show i + (k + 1) = i + 1 + k by omega]; exact hc⟩
      · rintro ⟨k, hk, hc⟩
        cases k with
        | zero => rw [Nat.add_zero] at hc; rw [h] at hc; cases hc
        | succ m =>
          exact ⟨m, by omega, by rw [show i + 1 + m = i + (m + 1) by omega]; exact hc⟩
    · rw [if_neg h]
      simp only [true_iff]
      exact ⟨0, by omega, by simpa using Bool.eq_false_iff.mpr h⟩

theorem awaitClearance_eq_true (ch : Nat → Bool) (maxWait : Nat) :
    awaitClearance ch maxWait = true ↔ ∃ k < maxWait, ch k = false := by
  rw [awaitClearance, awaitClearanceGo_eq_true]
  simp

/-! # Claim theorems: pagination and challenge handling -/

/-- Claim C1: every run of the list crawl returns at most the configured
limit of items, with pairwise-distinct profile URLs; the invariant is
preserved by every single push and by every loop iteration, not only at
the end. -/
theorem C1_list_crawl_invariant :
    (∀ (limit : Nat) (acc : List AgentListItem) (raw : RawItem),
        crawlInv limit acc → crawlInv limit (pushNew limit acc raw)) ∧
    (∀ (src : Nat → PageOutcome) (limit fuel page : Nat) (acc : List AgentListItem),
        crawlInv limit acc → crawlInv limit (crawlLoop src limit fuel page acc).fst) ∧
    (∀ (src : Nat → PageOutcome) (limit fuel : Nat),
        (scrapeList src limit fuel).length ≤ limit ∧
          ((scrapeList src limit fuel).map (fun a => a.profile_url)).Nodup) := by
  refine ⟨fun limit acc raw h => pushNew_crawlInv raw h,
          fun src limit fuel page acc h => crawlLoop_crawlInv src limit fuel page h,
          fun src limit fuel => ?_⟩
  have h : crawlInv limit (crawlLoop src limit fuel 1 []).fst :=
    crawlLoop_crawlInv src limit fuel 1 (by unfold crawlInv; simp)
  constructor
  · exact (List.length_take_le _ _)
  · rw [scrapeList, List.map_take]
    exact h.2.sublist (List.take_sublist _ _)

/-- Witness for C1 at a concrete source, accumulator and limit. -/
theorem C1_list_crawl_invariant_witness :
    crawlInv 5 [itW] ∧ crawlInv 5 (crawlLoop srcRepeat 5 3 1 [itW]).fst :=
  ⟨by unfold crawlInv; exact ⟨by decide, by decide⟩,
   C1_list_crawl_invariant.2.1 srcRepeat 5 3 1 [itW]
     (by unfold crawlInv; exact ⟨by decide, by decide⟩)⟩

/-- Counterexample to claim C2: `srcRepeat` serves the same single-agent
page forever, so page 2 returns only an already-seen URL (zero new items,
though a nonempty raw extraction); with `limit = 5` the crawl nevertheless
navigates to pages 3, 4 and 5 instead of terminating after page 2. -/
theorem C2_stop_on_no_new_counterexample :
    extractPage [aW] 5 ≠ [] ∧
    (crawlLoop srcRepeat 5 2 1 []).fst = (crawlLoop srcRepeat 5 1 1 []).fst ∧
    pagesVisited srcRepeat 5 5 = [1, 2, 3, 4, 5] ∧
    ¬(∀ p ∈ pagesVisited srcRepeat 5 5, p ≤ 2) := by
  refine ⟨by decide, by decide, by decide, by decide⟩

/-- Claim C2, amended: the pagination loop stops when a page contributes
zero *raw* extracted tuples (not zero *new* items): a page whose
extraction is empty ends the crawl there, and no page beyond it is ever
navigated to.  A page that returns only already-seen URLs does not stop
the crawl (see the counterexample). -/
theorem C2_stop_on_zero_raw :
    (∀ (src : Nat → PageOutcome) (limit fuel page : Nat) (acc : List AgentListItem)
        (links : List Anchor), src page = .ok links → extractPage links limit = [] →
        crawlLoop src limit (fuel + 1) page acc =
          if limit ≤ acc.length then (acc, []) else (acc, [page])) ∧
    (∀ (src : Nat → PageOutcome) (limit N : Nat) (links : List Anchor),
        src N = .ok links → extractPage links limit = [] →
        ∀ (fuel page : Nat) (acc : List AgentListItem), page ≤ N →
          ∀ p ∈ (crawlLoop src limit fuel page acc).snd, p ≤ N) :=
  ⟨fun src limit fuel page acc links h hext =>
      crawlLoop_zeroRaw src limit fuel page acc links h hext,
   fun src limit N links hsrc hext => crawlLoop_pages_bounded src limit N links hsrc hext⟩

/-- Witness for the amended C2: page 3 of `srcEmpty3` yields zero raw
tuples, and the loop reaching it returns immediately with the
accumulated items and no further navigation. -/
theorem C2_stop_on_zero_raw_witness :
    crawlLoop srcEmpty3 100 (0 + 1) 3 [itW] = ([itW], [3]) := by
  have h := C2_stop_on_zero_raw.1 srcEmpty3 100 0 3 [itW] [] (by rfl) (by rfl)
  simpa using h

/-- Claim C5: given an initialized browser, the list crawl never raises:
an exception while processing a page is caught, the crawl stops, and
whatever was accumulated so far is returned (possibly nothing at all). -/
theorem C5_crawl_never_raises :
    (∀ (src : Nat → PageOutcome) (limit fuel page : Nat) (acc : List AgentListItem),
        src page = .navError →
        crawlLoop src limit (fuel + 1) page acc =
          if limit ≤ acc.length then (acc, []) else (acc, [page])) ∧
    (∀ (src : Nat → PageOutcome) (limit fuel : Nat), src 1 = .navError →
        scrapeList src limit (fuel + 1) = []) := by
  constructor
  · exact fun src limit fuel page acc h => crawlLoop_navError src limit fuel page acc h
  · intro src limit fuel h
    rw [scrapeList, crawlLoop_navError src limit fuel 1 [] h]
    split <;> simp

/-- Witness for C5: a source that throws on page 1 makes the crawl return
exactly the accumulated items (and the empty list when starting empty). -/
theorem C5_crawl_never_raises_witness :
    crawlLoop srcErr1 5 (2 + 1) 1 [itW] = ([itW], [1]) ∧
    scrapeList srcErr1 5 (4 + 1) = [] :=
  ⟨by simpa using C5_crawl_never_raises.1 srcErr1 5 2 1 [itW] rfl,
   C5_crawl_never_raises.2 srcErr1 5 4 rfl⟩

/-- Counterexample to claim C7: for a page whose challenge never clears,
`awaitClearance` returns `false`, but the caller (`scrapeListPage`) does
*not* perform best-effort extraction on that page: although extraction
would have produced an item, the crawl stops and returns the empty list. -/
theorem C7_clearance_counterexample :
    awaitClearance chNever 15 = false ∧
    extractPage [aW] 100 ≠ [] ∧
    scrapeList srcBlocked 100 5 = [] ∧
    pagesVisited srcBlocked 100 5 = [1] := by
  refine ⟨by decide, by decide, by decide, by decide⟩

/-- Claim C7, amended: `awaitClearance` returns `true` exactly when the
page clears within `maxWait` polling cycles; on `true` the caller
proceeds with extraction of the page's anchors; on `false` (timeout) the
list crawl does not raise and does not extract that page — it stops and
returns the items accumulated so far (possibly none). -/
theorem C7_clearance_contract :
    (∀ (ch : Nat → Bool) (maxWait : Nat),
        awaitClearance ch maxWait = true ↔ ∃ k < maxWait, ch k = false) ∧
    (∀ (ch : Nat → Nat → Bool) (anchors : Nat → List Anchor) (maxWait p : Nat),
        awaitClearance (ch p) maxWait = true →
        srcOfChallenges ch anchors maxWait p = .ok (anchors p)) ∧
    (∀ (ch : Nat → Nat → Bool) (anchors : Nat → List Anchor)
        (maxWait limit fuel p : Nat) (acc : List AgentListItem),
        awaitClearance (ch p) maxWait = false →
        crawlLoop (srcOfChallenges ch anchors maxWait) limit (fuel + 1) p acc =
          if limit ≤ acc.length then (acc, []) else (acc, [p])) := by
  refine ⟨awaitClearance_eq_true, ?_, ?_⟩
  · intro ch anchors maxWait p h
    rw [srcOfChallenges]
    rw [h]
    rfl
  · intro ch anchors maxWait limit fuel p acc h
    refine crawlLoop_noAnchor _ limit fuel p acc ?_
    rw [srcOfChallenges, h]
    rfl

/-- Witness for the amended C7: a page challenged for two polling cycles
then clear yields `true`; a never-clearing page yields `false` and the
crawl returns the accumulated items untouched. -/
theorem C7_clearance_contract_witness :
    awaitClearance chTwo 15 = true ∧
    crawlLoop (srcOfChallenges (fun _ => chNever) (fun _ => [aW]) 15) 100 (1 + 1) 1 [] =
      ([], [1]) :=
  ⟨(C7_clearance_contract.1 chTwo 15).mpr ⟨2, by decide, by decide⟩,
   by simpa using
     C7_clearance_contract.2.2 (fun _ => chNever) (fun _ => [aW]) 15 100 1 1 [] (by decide)⟩

/-! # Lemmas about the bounded worker pool -/

theorem fillStep_length (batch : List α) (f : α → β) (slots : List (Option β)) (i : Nat) :
    (fillStep batch f slots i).length = slots.length := by
  unfold fillStep
  cases batch.get? i <;> simp

theorem foldl_fillStep_length (batch : List α) (f : α → β) :
    ∀ (order : List Nat) (slots : List (Option β)),
      (order.foldl (fillStep batch f) slots).length = slots.length := by
  intro order
  induction order with
  | nil => intro slots; rfl
  | cons i rest ih => intro slots; rw [List.foldl_cons, ih, fillStep_length]

theorem foldl_fillStep_get? (batch : List α) (f : α → β) :
    ∀ (order : List Nat) (slots : List (Option β)), slots.length = batch.length →
      ∀ j : Nat, (order.foldl (fillStep batch f) slots).get? j =
        if j ∈ order ∧ j < batch.length then (batch.get? j).map (fun a => some (f a))
        else slots.get? j := by
  intro order
  induction order with
  | nil => intro slots _ j; simp
  | cons i rest ih =>
    intro slots hlen j
    rw [List.foldl_cons, ih _ (by rw [fillStep_length]; exact hlen)]
    by_cases hjr : j ∈ rest ∧ j < batch.length
    · rw [if_pos hjr, if_pos ⟨List.mem_cons_of_mem _ hjr.1, hjr.2⟩]
    · rw [if_neg hjr]
      cases hbi : batch.get? i with
      | none =>
        have hni : batch.length ≤ i := List.get?_eq_none.mp hbi
        have hstep : fillStep batch f slots i = slots := by rw [fillStep, hbi]
        rw [hstep, if_neg]
        rintro ⟨hmem, hjn⟩
        rcases List.mem_cons.mp hmem with rfl | hmemr
        · omega
        · exact hjr ⟨hmemr, hjn⟩
      | some a =>
        have hi : i < batch.length := by
          by_contra hc
          rw [List.get?_eq_none.mpr (by omega)] at hbi
          cases hbi
        have hstep : fillStep batch f slots i = slots.set i (some (f a)) := by
          rw [fillStep, hbi]
        rw [hstep]
        by_cases hji : j = i
        · subst hji
          rw [List.get?_set_of_lt' (some (f a)) slots (show j < slots.length by omega),
            if_pos rfl, if_pos ⟨List.mem_cons_self _ _, hi⟩, hbi]
          rfl
        · rw [List.get?_set_of_lt' (some (f a)) slots (show i < slots.length by omega),
            if_neg (fun h => hji h.symm), if_neg]
          rintro ⟨hmem, hjn⟩
          rcases List.mem_cons.mp hmem with rfl | hmemr
          · exact hji rfl
          · exact hjr ⟨hmemr, hjn⟩

theorem fillSlots_of_perm (batch : List α) (f : α → β) (order : List Nat)
    (h : order.Perm (List.range batch.length)) :
    fillSlots batch f order = batch.map (fun a => some (f a)) := by
  rw [List.ext_get?_iff]
  intro j
  rw [fillSlots, foldl_fillStep_get? batch f order _ (by simp) j]
  by_cases hj : j < batch.length
  · rw [if_pos ⟨h.mem_iff.mpr (List.mem_range.mpr hj), hj⟩, List.get?_map]
  · rw [if_neg (by tauto), List.get?_eq_none.mpr (by simpa using hj),
      List.get?_eq_none.mpr (by simpa using hj)]

theorem promiseAll_map_some (l : List β) :
    promiseAll (l.map (fun b => some b)) = some l := by
  induction l with
  | nil => rfl
  | cons b bs ih => simp [promiseAll, ih]

theorem batchResults_of_perm (batch : List α) (f : α → β) (order : List Nat)
    (h : order.Perm (List.range batch.length)) :
    batchResults batch f order = batch.map f := by
  rw [batchResults, fillSlots_of_perm batch f order h,
    show batch.map (fun a => some (f a)) = (batch.map f).map (fun b => some b) by
      rw [List.map_map]; rfl,
    promiseAll_map_some]

theorem chunks_flatten : ∀ (c : Nat) (l : List α), (chunks c l).flatten = l
  | _, [] => by simp [chunks]
  | 0, x :: xs => by simp [chunks]
  | c + 1, x :: xs => by
    rw [chunks, List.flatten_cons, chunks_flatten (c + 1) ((x :: xs).drop (c + 1)),
      List.take_append_drop]
  termination_by _ l => l.length
  decreasing_by simp; omega

theorem runBatchesGo_eq (f : α → β) (orders : Nat → List Nat) :
    ∀ (bs : List (List α)) (k : Nat),
      (∀ j b, bs.get? j = some b → (orders (k + j)).Perm (List.range b.length)) →
      runBatchesGo f orders bs k = bs.flatten.map f := by
  intro bs
  induction bs with
  | nil => intro k _; simp [runBatchesGo]
  | cons b rest ih =>
    intro k h
    rw [runBatchesGo, List.flatten_cons, List.map_append]
    congr 1
    · exact batchResults_of_perm b f (orders k) (by simpa using h 0 b (by simp))
    · refine ih (k + 1) (fun j bb hj => ?_)
      have := h (j + 1) bb (by simpa using hj)
      simpa [Nat.add_comm, Nat.add_assoc, Nat.add_left_comm] using this

/-! # Claim theorems: worker pool and detail records -/

/-- Claim C3: for every input sequence, every concurrency width > 0 and
every completion timing (each batch's operations settling in an arbitrary
permutation of its indices), the detail phase produces exactly one
`AgentData` per input `AgentListItem` and preserves input order. -/
theorem C3_pool_order_preserving (c : Nat) (items : List AgentListItem)
    (detailOf : AgentListItem → AgentDetails) (timeOf : AgentListItem → ℚ)
    (orders : Nat → List Nat) (_hc : 0 < c)
    (hperm : ∀ j b, (chunks c items).get? j = some b →
      (orders j).Perm (List.range b.length)) :
    runDetail c items detailOf timeOf orders = items.map (mkData detailOf timeOf) ∧
    (runDetail c items detailOf timeOf orders).length = items.length ∧
    ∀ i, (runDetail c items detailOf timeOf orders).get? i =
      (items.get? i).map (mkData detailOf timeOf) := by
  have heq : runDetail c items detailOf timeOf orders =
      items.map (mkData detailOf timeOf) := by
    rw [runDetail, runBatchesGo_eq (mkData detailOf timeOf) orders (chunks c items) 0
      (fun j b hj => by simpa using hperm j b hj), chunks_flatten]
  exact ⟨heq, by rw [heq]; simp, fun i => by rw [heq, List.get?_map]⟩

/-- Witness for C3: three items, concurrency 2, with batch 0 completing
its second item before its first; the output is still in input order. -/
theorem C3_pool_order_preserving_witness :
    runDetail 2 [itW, itW2, itW3] (fun _ => allNullDetails) (fun _ => 1) ordersW =
      [itW, itW2, itW3].map (mkData (fun _ => allNullDetails) (fun _ => 1)) := by
  have hch : chunks 2 [itW, itW2, itW3] = [[itW, itW2], [itW3]] := by
    simp [chunks]
  refine (C3_pool_order_preserving 2 [itW, itW2, itW3] (fun _ => allNullDetails)
    (fun _ => 1) ordersW (by decide) ?_).1
  intro j b hj
  rw [hch] at hj
  match j with
  | 0 =>
    simp only [List.get?] at hj
    cases hj
    exact List.Perm.swap 0 1 []
  | 1 =>
    simp only [List.get?] at hj
    cases hj
    exact List.Perm.refl _
  | j + 2 =>
    simp only [List.get?] at hj
    cases hj

/-- Claim C4: given an initialized browser, a detail fetch/evaluation
that throws yields a `DetailRecord` with all six fields null instead of
propagating, and the corresponding record — merged with its valid
`ListItem` — still appears in the final output at the item's position. -/
theorem C4_throw_yields_allnull_record (behOf : AgentListItem → DetailBehavior)
    (items : List AgentListItem) (timeOf : AgentListItem → ℚ) (orders : Nat → List Nat)
    (i : Nat) (item : AgentListItem)
    (hperm : ∀ j b, (chunks concurrencyLimit items).get? j = some b →
      (orders j).Perm (List.range b.length))
    (hi : items.get? i = some item) (hthrow : behOf item = .error ()) :
    scrapeDetailPage true (behOf item) = .ok allNullDetails ∧
    (runDetail concurrencyLimit items (fun it => scrapeDetailPageOk (behOf it)) timeOf
        orders).get? i =
      some ⟨item.agent_name, item.profile_url, item.rating_stars, item.review_count,
        none, none, none, none, none, none, some (timeOf item)⟩ := by
  constructor
  · rw [hthrow]; rfl
  · have heq : runDetail concurrencyLimit items (fun it => scrapeDetailPageOk (behOf it))
        timeOf orders =
        items.map (mkData (fun it => scrapeDetailPageOk (behOf it)) timeOf) := by
      rw [runDetail, runBatchesGo_eq _ orders (chunks concurrencyLimit items) 0
        (fun j b hj => by simpa using hperm j b hj), chunks_flatten]
    rw [heq, List.get?_map, hi]
    simp [mkData, hthrow, scrapeDetailPageOk, allNullDetails]

/-- Witness for C4: two items, the first one's fetch throws; its record
is still first in the output, merged with its list fields and all-null
details. -/
theorem C4_throw_yields_allnull_record_witness :
    scrapeDetailPage true (behW itW) = .ok allNullDetails ∧
    (runDetail concurrencyLimit [itW, itW2] (fun it => scrapeDetailPageOk (behW it))
        (fun _ => 1) ordersW).get? 0 =
      some ⟨itW.agent_name, itW.profile_url, itW.rating_stars, itW.review_count,
        none, none, none, none, none, none, some 1⟩ := by
  have hch : chunks concurrencyLimit [itW, itW2] = [[itW, itW2]] := by
    simp [chunks, concurrencyLimit]
  refine C4_throw_yields_allnull_record behW [itW, itW2] (fun _ => 1) ordersW 0 itW
    ?_ rfl rfl
  intro j b hj
  rw [hch] at hj
  match j with
  | 0 =>
    simp only [List.get?] at hj
    cases hj
    exact List.Perm.swap 0 1 []
  | j + 1 =>
    simp only [List.get?] at hj
    cases hj

/-! # Lemmas about list-page entry acceptance -/

/-- An accepted raw tuple carries exactly the data the gates checked:
successful rating and review parses, the rating constrained to [1,5], a
nonzero review count, a name of length ≥ 3 produced by the cleanup
pipeline, and the URL built from the anchor's `href`. -/
theorem anchorItem_props (a : Anchor) (it : RawItem) (h : anchorItem a = some it) :
    3 ≤ it.name.length ∧ 1 ≤ it.rating ∧ it.rating ≤ 5 ∧ it.reviews ≠ 0 ∧
    (∃ st len, findFirstFloat a.text = some (st, len, it.rating)) ∧
    (∃ st len, findFirstParen a.text = some (st, len, it.reviews)) ∧
    (∃ href, a.href = some href ∧ it.url = fullUrlOf href) ∧
    it.name = extractName a.text := by
  unfold anchorItem at h
  cases ha : a.href with
  | none => rw [ha] at h; cases h
  | some href =>
    rw [ha] at h
    simp only [] at h
    split at h
    · cases h
    · split at h
      · rename_i st len r st2 len2 n hf hp
        split at h
        · rename_i hcond
          split at h
          · rename_i hname
            cases h
            exact ⟨hname, hcond.2.2.1, hcond.2.2.2, hcond.2.1,
              ⟨st, len, hf⟩, ⟨st2, len2, hp⟩, ⟨href, rfl, rfl⟩, rfl⟩
          · cases h
        · cases h
      · cases h

theorem extractPageGo_mem (limit : Nat) :
    ∀ (links : List Anchor) (acc : List RawItem) (it : RawItem),
      it ∈ extractPageGo limit links acc →
      it ∈ acc ∨ ∃ a ∈ links, anchorItem a = some it := by
  intro links
  induction links with
  | nil => intro acc it h; rw [extractPageGo] at h; exact Or.inl h
  | cons a rest ih =>
    intro acc it h
    rw [extractPageGo] at h
    split at h
    · exact Or.inl h
    · cases hai : anchorItem a with
      | none =>
        rw [hai] at h
        rcases ih acc it h with hacc | ⟨a2, ha2, hit⟩
        · exact Or.inl hacc
        · exact Or.inr ⟨a2, List.mem_cons_of_mem _ ha2, hit⟩
      | some it2 =>
        rw [hai] at h
        simp only [] at h
        split at h
        · rcases ih acc it h with hacc | ⟨a2, ha2, hit⟩
          · exact Or.inl hacc
          · exact Or.inr ⟨a2, List.mem_cons_of_mem _ ha2, hit⟩
        · rcases ih _ it h with hacc | ⟨a2, ha2, hit⟩
          · rcases List.mem_append.mp hacc with hacc | hsing
            · exact Or.inl hacc
            · rcases List.mem_singleton.mp hsing with rfl
              exact Or.inr ⟨a, List.mem_cons_self _ _, hai⟩
          · exact Or.inr ⟨a2, List.mem_cons_of_mem _ ha2, hit⟩

theorem extractPageGo_nodup (limit : Nat) :
    ∀ (links : List Anchor) (acc : List RawItem),
      ((acc.map (fun r => r.url)).Nodup) →
      ((extractPageGo limit links acc).map (fun r => r.url)).Nodup := by
  intro links
  induction links with
  | nil => intro acc h; rw [extractPageGo]; exact h
  | cons a rest ih =>
    intro acc h
    rw [extractPageGo]
    split
    · exact h
    · cases hai : anchorItem a with
      | none => exact ih acc h
      | some it2 =>
        simp only []
        split
        · exact ih acc h
        · rename_i hdup
          refine ih _ ?_
          simp only [List.map_append, List.map_cons, List.map_nil]
          rw [List.nodup_append]
          refine ⟨h, List.nodup_singleton _, ?_⟩
          intro x hx hy
          rcases List.mem_singleton.mp hy with rfl
          simp only [List.mem_map] at hx
          obtain ⟨r, hr, hru⟩ := hx
          simp only [List.any_eq_true, decide_eq_true_eq, not_exists, not_and] at hdup
          exact hdup r hr hru

/-- Claim C9: in list-mode extraction an entry is accepted only if a
`\d+\.\d+` rating within [1,5] parsed, a parenthesized integer review
count parsed, and its full URL is not already in the page's result set
(the returned URLs are pairwise distinct). -/
theorem C9_list_entry_acceptance (links : List Anchor) (limit : Nat) :
    ((extractPage links limit).map (fun r => r.url)).Nodup ∧
    ∀ it ∈ extractPage links limit, ∃ a ∈ links,
      (∃ st len, findFirstFloat a.text = some (st, len, it.rating)) ∧
      1 ≤ it.rating ∧ it.rating ≤ 5 ∧
      (∃ st2 len2, findFirstParen a.text = some (st2, len2, it.reviews)) ∧
      ∃ href, a.href = some href ∧ it.url = fullUrlOf href := by
  constructor
  · exact extractPageGo_nodup limit links [] (by simp)
  · intro it hmem
    rcases extractPageGo_mem limit links [] it hmem with hacc | ⟨a, ha, hit⟩
    · cases hacc
    · obtain ⟨_, hr1, hr5, _, hf, hp, hu, _⟩ := anchorItem_props a it hit
      exact ⟨a, ha, hf, hr1, hr5, hp, hu⟩

/-- Witness for C9: the concrete anchor `aW` yields `rawW`, whose parses,
rating bounds and URL origin the theorem certifies. -/
theorem C9_list_entry_acceptance_witness :
    ∃ a ∈ [aW],
      (∃ st len, findFirstFloat a.text = some (st, len, rawW.rating)) ∧
      1 ≤ rawW.rating ∧ rawW.rating ≤ 5 ∧
      (∃ st2 len2, findFirstParen a.text = some (st2, len2, rawW.reviews)) ∧
      ∃ href, a.href = some href ∧ rawW.url = fullUrlOf href :=
  (C9_list_entry_acceptance [aW] 10).2 rawW (by decide)

/-! # Lemmas for the emitted-item guarantees -/

theorem anchorItem_itemGood (a : Anchor) (raw : RawItem) (h : anchorItem a = some raw) :
    itemGood (mkItem raw) := by
  obtain ⟨hname, hr1, hr5, hrev, _, _, _, _⟩ := anchorItem_props a raw h
  exact ⟨hname, hr1, hr5, Nat.pos_of_ne_zero hrev⟩

theorem extractPage_itemGood (links : List Anchor) (limit : Nat) (raw : RawItem)
    (h : raw ∈ extractPage links limit) : itemGood (mkItem raw) := by
  rcases extractPageGo_mem limit links [] raw h with hacc | ⟨a, _, hit⟩
  · cases hacc
  · exact anchorItem_itemGood a raw hit

theorem pushNew_itemGood (limit : Nat) (acc : List AgentListItem) (raw : RawItem)
    (hacc : ∀ it ∈ acc, itemGood it) (hraw : itemGood (mkItem raw)) :
    ∀ it ∈ pushNew limit acc raw, itemGood it := by
  unfold pushNew
  split
  · exact hacc
  · split
    · exact hacc
    · intro it hit
      rcases List.mem_append.mp hit with hl | hr
      · exact hacc it hl
      · rcases List.mem_singleton.mp hr with rfl
        exact hraw

theorem foldl_pushNew_itemGood (limit : Nat) (raws : List RawItem) :
    ∀ (acc : List AgentListItem), (∀ it ∈ acc, itemGood it) →
      (∀ r ∈ raws, itemGood (mkItem r)) →
      ∀ it ∈ raws.foldl (pushNew limit) acc, itemGood it := by
  induction raws with
  | nil => intro acc hacc _; exact hacc
  | cons r rs ih =>
    intro acc hacc hraws
    exact ih _ (pushNew_itemGood limit acc r hacc (hraws r (List.mem_cons_self _ _)))
      (fun r2 hr2 => hraws r2 (List.mem_cons_of_mem _ hr2))

theorem crawlLoop_itemGood (src : Nat → PageOutcome) (limit : Nat) :
    ∀ (fuel page : Nat) (acc : List AgentListItem), (∀ it ∈ acc, itemGood it) →
      ∀ it ∈ (crawlLoop src limit fuel page acc).fst, itemGood it := by
  intro fuel
  induction fuel with
  | zero => intro page acc hacc; exact hacc
  | succ n ih =>
    intro page acc hacc
    rw [crawlLoop]
    split
    · exact hacc
    · match hsrc : src page with
      | .navError => simp only []; exact hacc
      | .noAnchor => simp only []; exact hacc
      | .ok links =>
        simp only []
        have hstep : ∀ it ∈ (extractPage links limit).foldl (pushNew limit) acc,
            itemGood it :=
          foldl_pushNew_itemGood limit (extractPage links limit) acc hacc
            (fun r hr => extractPage_itemGood links limit r hr)
        split
        · exact hstep
        · split
          · exact hstep
          · exact ih (page + 1) _ hstep

/-- Claim C10: every `ListItem` the crawl emits has all four fields
populated and constrained — a name of length ≥ 3, a rating in [1,5] and
a strictly positive review count. -/
theorem C10_emitted_item_fields (src : Nat → PageOutcome) (limit fuel : Nat) :
    ∀ it ∈ scrapeList src limit fuel,
      3 ≤ it.agent_name.length ∧ 1 ≤ it.rating_stars ∧ it.rating_stars ≤ 5 ∧
        0 < it.review_count := by
  intro it hmem
  have hfull : it ∈ (crawlLoop src limit fuel 1 []).fst :=
    (List.take_sublist _ _).subset hmem
  exact crawlLoop_itemGood src limit fuel 1 [] (by intro x hx; cases hx) it hfull

/-- Witness for C10 at the concrete crawl of `srcRepeat`. -/
theorem C10_emitted_item_fields_witness :
    3 ≤ (mkItem rawW).agent_name.length ∧ 1 ≤ (mkItem rawW).rating_stars ∧
      (mkItem rawW).rating_stars ≤ 5 ∧ 0 < (mkItem rawW).review_count :=
  C10_emitted_item_fields srcRepeat 5 5 (mkItem rawW) (by decide)

/-! # Lemmas about decimal rendering and the money formatter -/

theorem digit_char_facts (d : Nat) (h : d < 10) :
    (Char.ofNat (48 + d)).isDigit = true ∧ (Char.ofNat (48 + d)).toNat = 48 + d := by
  interval_cases d <;> exact ⟨by decide, by decide⟩

theorem isDigit_beq_comma (c : Char) (h : c.isDigit = true) : (c == ',') = false := by
  cases hbe : (c == ',') with
  | false => rfl
  | true =>
    have hc : c = ',' := eq_of_beq hbe
    subst hc
    exact absurd h (by decide)

theorem digitsRevGo_lt10 : ∀ (fuel n : Nat), ∀ d ∈ digitsRevGo fuel n, d < 10 := by
  intro fuel
  induction fuel with
  | zero => intro n d hd; cases hd
  | succ f ih =>
    intro n d hd
    rw [digitsRevGo] at hd
    split at hd
    · cases hd
    · rcases List.mem_cons.mp hd with rfl | hd'
      · omega
      · exact ih _ d hd'

theorem digitsRevGo_foldr : ∀ (fuel n : Nat), n ≤ fuel →
    (digitsRevGo fuel n).foldr (fun d acc => d + 10 * acc) 0 = n := by
  intro fuel
  induction fuel with
  | zero => intro n hn; interval_cases n; rfl
  | succ f ih =>
    intro n hn
    rw [digitsRevGo]
    split
    · rename_i h0; simpa using h0.symm
    · rename_i h0
      rw [List.foldr_cons, ih (n / 10) (by omega)]
      omega

theorem digitsToNat_append_digit (xs : List Char) (d : Nat) (hd : d < 10) :
    digitsToNat (xs ++ [Char.ofNat (48 + d)]) = digitsToNat xs * 10 + d := by
  rw [digitsToNat, List.foldl_append]
  simp only [List.foldl_cons, List.foldl_nil]
  rw [(digit_char_facts d hd).2]
  rw [digitsToNat]
  omega

theorem digitsToNat_render : ∀ (l : List Nat), (∀ d ∈ l, d < 10) →
    digitsToNat (l.reverse.map (fun d => Char.ofNat (48 + d))) =
      l.foldr (fun d acc => d + 10 * acc) 0 := by
  intro l
  induction l with
  | nil => intro _; rfl
  | cons d l' ih =>
    intro hall
    rw [List.reverse_cons, List.map_append]
    simp only [List.map_cons, List.map_nil]
    rw [digitsToNat_append_digit _ d (hall d (List.mem_cons_self _ _)),
      ih (fun x hx => hall x (List.mem_cons_of_mem _ hx)), List.foldr_cons]
    omega

theorem natToDecStr_digitsToNat (n : Nat) : digitsToNat (natToDecStr n) = n := by
  rw [natToDecStr]
  split
  · rename_i h0; subst h0; decide
  · rw [digitsToNat_render _ (digitsRevGo_lt10 n n), digitsRevGo_foldr n n (Nat.le_refl n)]

theorem natToDecStr_digits (n : Nat) : ∀ c ∈ natToDecStr n, c.isDigit = true := by
  intro c hc
  rw [natToDecStr] at hc
  split at hc
  · rcases List.mem_singleton.mp hc with rfl; decide
  · simp only [List.mem_map] at hc
    obtain ⟨d, hd, rfl⟩ := hc
    exact (digit_char_facts d (digitsRevGo_lt10 n n d (List.mem_reverse.mp hd))).1

theorem natToDecStr_ne_nil (n : Nat) : natToDecStr n ≠ [] := by
  rw [natToDecStr]
  split
  · simp
  · rename_i h0
    cases n with
    | zero => exact absurd rfl h0
    | succ m =>
      rw [digitsRevGo, if_neg (by omega)]
      simp

theorem takeWhile_append_of_all (p : Char → Bool) :
    ∀ (l : List Char) (x : Char) (r : List Char), (∀ c ∈ l, p c = true) → p x = false →
      (l ++ x :: r).takeWhile p = l := by
  intro l
  induction l with
  | nil => intro x r _ hx; simp [List.takeWhile_cons, hx]
  | cons c cs ih =>
    intro x r hall hx
    rw [List.cons_append, List.takeWhile_cons,
      if_pos (hall c (List.mem_cons_self _ _)), ih x r
        (fun y hy => hall y (List.mem_cons_of_mem _ hy)) hx]

theorem parseNumber_format_K (v : Nat) (h1 : 1000 ≤ v) (h2 : v < 1000000) :
    parseNumber (formatMoney v) = some ((v + 500) / 1000) := by
  have hfm : formatMoney v = '$' :: (natToDecStr ((v + 500) / 1000) ++ ['K']) := by
    rw [formatMoney, if_neg (by omega), if_pos (by omega)]
  rw [hfm, parseNumber, if_neg (by simp)]
  have hrc : removeCommas ('$' :: (natToDecStr ((v + 500) / 1000) ++ ['K'])) =
      '$' :: (natToDecStr ((v + 500) / 1000) ++ ['K']) := by
    rw [removeCommas, List.filter_eq_self]
    intro a ha
    rcases List.mem_cons.mp ha with rfl | ha2
    · decide
    · rcases List.mem_append.mp ha2 with hd | hk
      · rw [isDigit_beq_comma a (natToDecStr_digits _ a hd)]; rfl
      · rcases List.mem_singleton.mp hk with rfl; decide
  rw [hrc]
  obtain ⟨c, cs, hcs⟩ : ∃ c cs, natToDecStr ((v + 500) / 1000) = c :: cs := by
    cases hns : natToDecStr ((v + 500) / 1000) with
    | nil => exact absurd hns (natToDecStr_ne_nil _)
    | cons c cs => exact ⟨c, cs, rfl⟩
  have hcd : c.isDigit = true := natToDecStr_digits _ c (hcs ▸ List.mem_cons_self c cs)
  rw [firstDigitRun, if_neg (by decide), hcs, List.cons_append, firstDigitRun,
    if_pos hcd, ← List.cons_append,
    takeWhile_append_of_all _ (c :: cs) 'K' []
      (fun x hx => natToDecStr_digits _ x (hcs ▸ hx)) (by decide),
    ← hcs, Option.map_some', natToDecStr_digitsToNat]

/-- Claim C6: the Tier-1 money formatter is deterministic, and parsing
the numeric portion of a generated K-suffixed string with `parseNumber`
(`utils.ts`) recovers the value at ×1000 scale. -/
theorem C6_money_format_round_trip (v : Nat) :
    formatMoney v = formatMoney v ∧
    (1000 ≤ v → v < 1000000 → parseNumber (formatMoney v) = some ((v + 500) / 1000)) ∧
    (1000 ≤ v → v < 1000000 → v % 1000 = 0 →
      parseNumber (formatMoney v) = some (v / 1000)) := by
  refine ⟨rfl, fun h1 h2 => parseNumber_format_K v h1 h2, fun h1 h2 h3 => ?_⟩
  rw [parseNumber_format_K v h1 h2]
  congr 1
  omega

/-- Witness for C6 at 650000: the formatted string is `"$650K"` and its
numeric portion parses back to 650. -/
theorem C6_money_format_round_trip_witness :
    parseNumber (formatMoney 650000) = some 650 := by
  have h := (C6_money_format_round_trip 650000).2.2 (by decide) (by decide) (by decide)
  simpa using h

/-- Counterexample to claim C8: `pageNoMeet` has no structured team
field and exactly 4 qualifying member cards, yet `teamMembersCount` is
null — the card-counting fallback additionally requires a
`Meet the …Team/Group` marker in the page text (`scraper.ts` line 428),
which the claim omits. -/
theorem C8_team_count_counterexample :
    findValueForLabel pageNoMeet.labelElems "Team members".toList = none ∧
    (pageNoMeet.memberElemTexts.map trimStr).find?
      (fun txt => matchesExact membersPat txt) = none ∧
    (pageNoMeet.divs.filter isCard).length = 4 ∧
    (extractDetail pageNoMeet).teamMembers = none ∧
    (extractDetail pageNoMeet).teamMembers ≠ some 4 := by
  refine ⟨by decide, by decide, by decide, by decide, by decide⟩

/-- Claim C8, amended: when no explicit team-member count is found *and
the page text contains a `Meet the …Team/Group` marker*, the fallback
counts qualifying member-card elements (text length in [80,600], a
rating marker, a "sales last 12 months" phrase, a price-range phrase and
an image) and sets the count only if it lies within [2,20]; in
particular four qualifying cards yield a team count of 4. -/
theorem C8_team_count_fallback (page : DetailPage) (c : Nat)
    (hlabel : findValueForLabel page.labelElems "Team members".toList = none)
    (hscan : (page.memberElemTexts.map trimStr).find?
        (fun txt => matchesExact membersPat txt) = none)
    (hmeet : hasMeetTeam page.bodyText = true)
    (hcount : (page.divs.filter isCard).length = c)
    (hc2 : 2 ≤ c) (hc20 : c ≤ 20) :
    (extractDetail page).teamMembers = some c := by
  rw [extractDetail]
  simp only [hlabel, hscan, hmeet, hcount, if_true]
  rw [if_pos ⟨hc2, hc20⟩]

/-- Witness for the amended C8: `pageMeet` (the same four qualifying
cards plus the `Meet The Team` marker) yields a team count of 4. -/
theorem C8_team_count_fallback_witness :
    (extractDetail pageMeet).teamMembers = some 4 :=
  C8_team_count_fallback pageMeet 4 (by decide) (by decide) (by decide) (by decide)
    (by decide) (by decide)

end Zillow
